import Mathlib

/-
Verification of the C++ serde runtime header
(src/serde-generate/runtime/cpp/serde.hpp).

The header defines a pair of type-directed dispatchers:
`Serializable<T>::serialize(value, serializer)` emits one Serializer
("Writer") operation per primitive leaf plus length/tag operations at
composite boundaries, and `Deserializable<T>::deserialize(deserializer)`
mirrors them against a Deserializer ("Reader").

The embedding below is format-agnostic, exactly like the header: a Writer
operation is recorded as a `Token`, and the paired Reader returns what the
matching write operation recorded (reading a mismatched operation kind is a
Reader failure).  C++ machine integers are represented by `Nat`/`Int`
carrying the corresponding range side conditions in the typing relation
`HasShape`; IEEE floats are carried as opaque bit patterns, which is
faithful because the dispatchers only pass them through to the
Writer/Reader.
-/

namespace Serde

/-- Embedding of `struct uint128_t { uint64_t high; uint64_t low; }`.
The two fields hold values of C++ `uint64_t`. -/
structure uint128_t where
  high : Nat
  low : Nat
  deriving DecidableEq

/-- Embedding of `bool operator==(const uint128_t &lhs, const uint128_t &rhs)`,
whose body is `return lhs.high == rhs.high && lhs.low == lhs.low;`
(note: the right operand of the second comparison is `lhs.low`, as written
in the source). -/
def uint128_eq (lhs rhs : uint128_t) : Bool :=
  decide (lhs.high = rhs.high) && decide (lhs.low = lhs.low)

/-- Embedding of `struct int128_t { int64_t high; uint64_t low; }`. -/
structure int128_t where
  high : Int
  low : Nat
  deriving DecidableEq

/-- Embedding of `bool operator==(const int128_t &lhs, const int128_t &rhs)`,
whose body is `return lhs.high == rhs.high && lhs.low == lhs.low;`
(again comparing `lhs.low` with itself, as written in the source). -/
def int128_eq (lhs rhs : int128_t) : Bool :=
  decide (lhs.high = rhs.high) && decide (lhs.low = lhs.low)

/-- One abstract Writer operation, as recorded by a Serializer.  There is one
constructor per `serialize_*` primitive of the Serializer contract
(`serialize_unit`, `serialize_bool`, `serialize_char`, `serialize_f32`,
`serialize_f64`, `serialize_u8` .. `serialize_u128`, `serialize_i8` ..
`serialize_i128`, `serialize_str`, `serialize_len`,
`serialize_variant_index`). -/
inductive Token where
  | unit : Token
  | bool (b : Bool) : Token
  | char (c : Nat) : Token
  | f32 (bits : Nat) : Token
  | f64 (bits : Nat) : Token
  | u8 (n : Nat) : Token
  | u16 (n : Nat) : Token
  | u32 (n : Nat) : Token
  | u64 (n : Nat) : Token
  | u128 (x : uint128_t) : Token
  | i8 (n : Int) : Token
  | i16 (n : Int) : Token
  | i32 (n : Int) : Token
  | i64 (n : Int) : Token
  | i128 (x : int128_t) : Token
  | str (s : String) : Token
  | len (n : Nat) : Token
  | variantIndex (i : Nat) : Token
  deriving DecidableEq

/-- A value of the closed value model handled by the header: one constructor
per C++ type that has a `Serializable`/`Deserializable` specialization.
`option` is `std::optional`, `seq` is `std::vector`, `fixedArray` is
`std::array` (where the length is tracked by the shape), `map` is `std::map`
represented by its entry sequence in iteration order, `tuple` is
`std::tuple`, `sum` is `std::variant` (active alternative index plus
payload), `ownedPtr` is `std::unique_ptr` (never null while held). -/
inductive Value where
  | unit : Value
  | bool (b : Bool) : Value
  | char (c : Nat) : Value
  | f32 (bits : Nat) : Value
  | f64 (bits : Nat) : Value
  | u8 (n : Nat) : Value
  | u16 (n : Nat) : Value
  | u32 (n : Nat) : Value
  | u64 (n : Nat) : Value
  | u128 (x : uint128_t) : Value
  | i8 (n : Int) : Value
  | i16 (n : Int) : Value
  | i32 (n : Int) : Value
  | i64 (n : Int) : Value
  | i128 (x : int128_t) : Value
  | str (s : String) : Value
  | option (v : Option Value) : Value
  | seq (vs : List Value) : Value
  | fixedArray (vs : List Value) : Value
  | map (es : List (Value × Value)) : Value
  | tuple (vs : List Value) : Value
  | sum (i : Nat) (v : Value) : Value
  | ownedPtr (v : Value) : Value

mutual

/-- Boolean equality on values, used to embed the key-equivalence test the
host `std::map` performs on decoded keys (two keys are equivalent exactly
when they are equal as values). -/
def Value.beq : Value → Value → Bool
  | .unit, b => match b with | .unit => true | _ => false
  | .bool a, b => match b with | .bool c => decide (a = c) | _ => false
  | .char a, b => match b with | .char c => decide (a = c) | _ => false
  | .f32 a, b => match b with | .f32 c => decide (a = c) | _ => false
  | .f64 a, b => match b with | .f64 c => decide (a = c) | _ => false
  | .u8 a, b => match b with | .u8 c => decide (a = c) | _ => false
  | .u16 a, b => match b with | .u16 c => decide (a = c) | _ => false
  | .u32 a, b => match b with | .u32 c => decide (a = c) | _ => false
  | .u64 a, b => match b with | .u64 c => decide (a = c) | _ => false
  | .u128 a, b => match b with | .u128 c => decide (a = c) | _ => false
  | .i8 a, b => match b with | .i8 c => decide (a = c) | _ => false
  | .i16 a, b => match b with | .i16 c => decide (a = c) | _ => false
  | .i32 a, b => match b with | .i32 c => decide (a = c) | _ => false
  | .i64 a, b => match b with | .i64 c => decide (a = c) | _ => false
  | .i128 a, b => match b with | .i128 c => decide (a = c) | _ => false
  | .str a, b => match b with | .str c => decide (a = c) | _ => false
  | .option a, b => match b with | .option c => Value.beqOpt a c | _ => false
  | .seq a, b => match b with | .seq c => Value.beqList a c | _ => false
  | .fixedArray a, b => match b with | .fixedArray c => Value.beqList a c | _ => false
  | .map a, b => match b with | .map c => Value.beqEntries a c | _ => false
  | .tuple a, b => match b with | .tuple c => Value.beqList a c | _ => false
  | .sum i a, b => match b with | .sum j c => decide (i = j) && Value.beq a c | _ => false
  | .ownedPtr a, b => match b with | .ownedPtr c => Value.beq a c | _ => false

/-- Equality helper for optional payloads. -/
def Value.beqOpt : Option Value → Option Value → Bool
  | none, b => match b with | none => true | _ => false
  | some a, b => match b with | some c => Value.beq a c | _ => false

/-- Equality helper for element lists. -/
def Value.beqList : List Value → List Value → Bool
  | [], b => match b with | [] => true | _ => false
  | a :: as, b => match b with | c :: cs => Value.beq a c && Value.beqList as cs | _ => false

/-- Equality helper for map entry lists. -/
def Value.beqEntries : List (Value × Value) → List (Value × Value) → Bool
  | [], b => match b with | [] => true | _ => false
  | (k, v) :: as, b =>
    match b with
    | (k2, v2) :: cs => Value.beq k k2 && Value.beq v v2 && Value.beqEntries as cs
    | _ => false

end

theorem Value.eq_of_beq : ∀ a b, Value.beq a b = true → a = b := by
  apply Value.beq.induct (fun a b => Value.beq a b = true → a = b)
      (fun as bs => Value.beqEntries as bs = true → as = bs)
      (fun as bs => Value.beqList as bs = true → as = bs)
      (fun a b => Value.beqOpt a b = true → a = b) <;>
    intros <;> simp_all [Value.beq, Value.beqOpt, Value.beqList, Value.beqEntries]

theorem Value.beq_of_eq : ∀ a b, a = b → Value.beq a b = true := by
  apply Value.beq.induct (fun a b => a = b → Value.beq a b = true)
      (fun as bs => as = bs → Value.beqEntries as bs = true)
      (fun as bs => as = bs → Value.beqList as bs = true)
      (fun a b => a = b → Value.beqOpt a b = true) <;>
    intros <;> subst_eqs <;>
      simp_all [Value.beq, Value.beqOpt, Value.beqList, Value.beqEntries]

theorem Value.beq_iff_eq (a b : Value) : Value.beq a b = true ↔ a = b :=
  ⟨Value.eq_of_beq a b, Value.beq_of_eq a b⟩

/-- The static shape (C++ type) a deserialization is directed by. -/
inductive Shape where
  | unit : Shape
  | bool : Shape
  | char : Shape
  | f32 : Shape
  | f64 : Shape
  | u8 : Shape
  | u16 : Shape
  | u32 : Shape
  | u64 : Shape
  | u128 : Shape
  | i8 : Shape
  | i16 : Shape
  | i32 : Shape
  | i64 : Shape
  | i128 : Shape
  | str : Shape
  | option (t : Shape) : Shape
  | seq (t : Shape) : Shape
  | fixedArray (t : Shape) (n : Nat) : Shape
  | map (k v : Shape) : Shape
  | tuple (ts : List Shape) : Shape
  | sum (ts : List Shape) : Shape
  | ownedPtr (t : Shape) : Shape

mutual

/-- Embedding of the Serialization Dispatcher
(`Serializable<T>::serialize(value, serializer)` for every specialization in
the header), with the Serializer abstracted as a recorder: the result is the
exact sequence of Writer operations the dispatcher performs, in order.
Case by case: leaves emit their one primitive operation; `std::optional`
writes `serialize_u8(1)` then the payload if present, else `serialize_u8(0)`;
`std::vector` writes `serialize_len(size)` then the elements in iteration
order; `std::array` writes the elements only; `std::map` writes
`serialize_len(size)` then key-then-value per entry in iteration order;
`std::tuple` writes each component in declared order (the fold expression
`(Serializable<Types>::serialize(args, serializer), ...)`); `std::variant`
writes `serialize_variant_index(value.index())` then the active payload;
`std::unique_ptr` writes `*value` as if the indirection were absent. -/
def serializeValue : Value → List Token
  | .unit => [.unit]
  | .bool b => [.bool b]
  | .char c => [.char c]
  | .f32 bits => [.f32 bits]
  | .f64 bits => [.f64 bits]
  | .u8 n => [.u8 n]
  | .u16 n => [.u16 n]
  | .u32 n => [.u32 n]
  | .u64 n => [.u64 n]
  | .u128 x => [.u128 x]
  | .i8 n => [.i8 n]
  | .i16 n => [.i16 n]
  | .i32 n => [.i32 n]
  | .i64 n => [.i64 n]
  | .i128 x => [.i128 x]
  | .str s => [.str s]
  | .option none => [.u8 0]
  | .option (some v) => .u8 1 :: serializeValue v
  | .seq vs => .len vs.length :: serializeList vs
  | .fixedArray vs => serializeList vs
  | .map es => .len es.length :: serializeEntries es
  | .tuple vs => serializeList vs
  | .sum i v => .variantIndex i :: serializeValue v
  | .ownedPtr v => serializeValue v

/-- The element loop shared by the vector/array/tuple serializers. -/
def serializeList : List Value → List Token
  | [] => []
  | v :: vs => serializeValue v ++ serializeList vs

/-- The entry loop of the map serializer: key immediately followed by value. -/
def serializeEntries : List (Value × Value) → List Token
  | [] => []
  | (k, v) :: es => serializeValue k ++ (serializeValue v ++ serializeEntries es)

end

/-- Decode errors. `readerError` is a Reader-side failure (the next recorded
operation does not match the requested `deserialize_*` primitive);
`throwMsg s` is a C++ `throw` of the string literal `s` performed by the
dispatcher itself; `atOutOfRange` is the `std::out_of_range` exception thrown
by `std::array::at` when the variant case table is indexed out of bounds. -/
inductive DeserializeError where
  | readerError : DeserializeError
  | throwMsg (msg : String) : DeserializeError
  | atOutOfRange : DeserializeError
  deriving DecidableEq

/-- The Reader operation `deserialize_u8()`, against the recorded stream:
returns what the matching `serialize_u8` recorded, and fails if the next
recorded operation is of a different kind. -/
def readU8 : List Token → Except DeserializeError (Nat × List Token)
  | Token.u8 n :: rest => .ok (n, rest)
  | _ => .error .readerError

/-- The Reader operation `deserialize_len()`. -/
def readLen : List Token → Except DeserializeError (Nat × List Token)
  | Token.len n :: rest => .ok (n, rest)
  | _ => .error .readerError

/-- The Reader operation `deserialize_variant_index()`. -/
def readVariantIndex : List Token → Except DeserializeError (Nat × List Token)
  | Token.variantIndex i :: rest => .ok (i, rest)
  | _ => .error .readerError

/-- Whether the entry list of a map already holds an entry whose key is
equivalent to `k` (the host `std::map` comparator's equivalence coincides
with value equality). -/
def mapContains (es : List (Value × Value)) (k : Value) : Bool :=
  es.any fun e => Value.beq e.1 k

/-- Embedding of `result.insert({key, value})` on `std::map`: the insertion
is a no-op when an entry with an equivalent key is already present
(`std::map::insert` never overwrites); otherwise the new entry joins the
container.  The container is represented by its entry sequence; where the new
entry lands among the other keys is irrelevant to every property studied
here, so it is appended. -/
def mapInsert (es : List (Value × Value)) (k v : Value) : List (Value × Value) :=
  if mapContains es k then es else es ++ [(k, v)]

/-- The value bound to key `k` in a decoded map, if any. -/
def mapLookup (es : List (Value × Value)) (k : Value) : Option Value :=
  (es.find? fun e => Value.beq e.1 k).map Prod.snd

/-- The element loop of the vector deserializer (`for (i = 0; i < len; i++)
result.push_back(deserialize(...))`) and of the array deserializer, with the
element decoder abstracted: decodes exactly `n` elements, appending in read
order. -/
def deserializeElements
    (f : List Token → Except DeserializeError (Value × List Token)) :
    Nat → List Token → Except DeserializeError (List Value × List Token)
  | 0, toks => .ok ([], toks)
  | n + 1, toks =>
    match f toks with
    | .error e => .error e
    | .ok (v, rest) =>
      match deserializeElements f n rest with
      | .error e => .error e
      | .ok (vs, rest2) => .ok (v :: vs, rest2)

/-- The entry loop of the map deserializer: per entry it decodes the key,
then the value, then performs `result.insert({key, value})`. -/
def deserializeMapEntries
    (fk fv : List Token → Except DeserializeError (Value × List Token)) :
    Nat → List (Value × Value) → List Token →
    Except DeserializeError (List (Value × Value) × List Token)
  | 0, acc, toks => .ok (acc, toks)
  | n + 1, acc, toks =>
    match fk toks with
    | .error e => .error e
    | .ok (k, rest) =>
      match fv rest with
      | .error e => .error e
      | .ok (v, rest2) => deserializeMapEntries fk fv n (mapInsert acc k v) rest2

mutual

/-- Embedding of the Deserialization Dispatcher
(`Deserializable<T>::deserialize(deserializer)` for every specialization in
the header), against the recorded operation stream; on success it returns the
decoded value and the rest of the stream.  Case by case: leaves perform their
one Reader primitive; `std::optional` reads a tag via `deserialize_u8`, tag 0
yields the empty optional, tag 1 decodes the payload, and any other tag is
`throw "invalid option tag"`; `std::vector` reads `deserialize_len()` then
decodes exactly that many elements; `std::array` decodes exactly `n`
elements with no length read; `std::map` reads `deserialize_len()` then runs
the entry loop starting from the empty container; `std::tuple` builds the aggregate from the pack expansion
`std::make_tuple(Deserializable<Types>::deserialize(deserializer)...)` with
no length or tag read — a function call, so C++ leaves the evaluation order
of its arguments unspecified; this definition fixes the declared
(left-to-right) component order, which is only one of the admissible orders
(see `deserializeComponentsRTL` for the opposite extreme);
`std::variant` reads `deserialize_variant_index()` and invokes the case-table
entry for that index via `cases.at(index)` — entry `i` of the static table
decodes alternative `i`'s payload type and wraps it in the variant at
alternative `i`, while an index with no table entry makes `std::array::at`
throw `std::out_of_range`; `std::unique_ptr` decodes the inner value and
takes sole ownership of it (`std::make_unique<T>(deserialize(...))`). -/
def deserialize : Shape → List Token → Except DeserializeError (Value × List Token)
  | .unit, toks =>
    match toks with
    | Token.unit :: rest => .ok (.unit, rest)
    | _ => .error .readerError
  | .bool, toks =>
    match toks with
    | Token.bool b :: rest => .ok (.bool b, rest)
    | _ => .error .readerError
  | .char, toks =>
    match toks with
    | Token.char c :: rest => .ok (.char c, rest)
    | _ => .error .readerError
  | .f32, toks =>
    match toks with
    | Token.f32 bits :: rest => .ok (.f32 bits, rest)
    | _ => .error .readerError
  | .f64, toks =>
    match toks with
    | Token.f64 bits :: rest => .ok (.f64 bits, rest)
    | _ => .error .readerError
  | .u8, toks =>
    match readU8 toks with
    | .ok (n, rest) => .ok (.u8 n, rest)
    | .error e => .error e
  | .u16, toks =>
    match toks with
    | Token.u16 n :: rest => .ok (.u16 n, rest)
    | _ => .error .readerError
  | .u32, toks =>
    match toks with
    | Token.u32 n :: rest => .ok (.u32 n, rest)
    | _ => .error .readerError
  | .u64, toks =>
    match toks with
    | Token.u64 n :: rest => .ok (.u64 n, rest)
    | _ => .error .readerError
  | .u128, toks =>
    match toks with
    | Token.u128 x :: rest => .ok (.u128 x, rest)
    | _ => .error .readerError
  | .i8, toks =>
    match toks with
    | Token.i8 n :: rest => .ok (.i8 n, rest)
    | _ => .error .readerError
  | .i16, toks =>
    match toks with
    | Token.i16 n :: rest => .ok (.i16 n, rest)
    | _ => .error .readerError
  | .i32, toks =>
    match toks with
    | Token.i32 n :: rest => .ok (.i32 n, rest)
    | _ => .error .readerError
  | .i64, toks =>
    match toks with
    | Token.i64 n :: rest => .ok (.i64 n, rest)
    | _ => .error .readerError
  | .i128, toks =>
    match toks with
    | Token.i128 x :: rest => .ok (.i128 x, rest)
    | _ => .error .readerError
  | .str, toks =>
    match toks with
    | Token.str s :: rest => .ok (.str s, rest)
    | _ => .error .readerError
  | .option t, toks =>
    match readU8 toks with
    | .error e => .error e
    | .ok (tag, rest) =>
      if tag = 0 then .ok (.option none, rest)
      else if tag ≠ 1 then .error (.throwMsg "invalid option tag")
      else
        match deserialize t rest with
        | .error e => .error e
        | .ok (v, rest2) => .ok (.option (some v), rest2)
  | .seq t, toks =>
    match readLen toks with
    | .error e => .error e
    | .ok (n, rest) =>
      match deserializeElements (fun more => deserialize t more) n rest with
      | .error e => .error e
      | .ok (vs, rest2) => .ok (.seq vs, rest2)
  | .fixedArray t n, toks =>
    match deserializeElements (fun more => deserialize t more) n toks with
    | .error e => .error e
    | .ok (vs, rest) => .ok (.fixedArray vs, rest)
  | .map kt vt, toks =>
    match readLen toks with
    | .error e => .error e
    | .ok (n, rest) =>
      match deserializeMapEntries (fun more => deserialize kt more)
          (fun more => deserialize vt more) n [] rest with
      | .error e => .error e
      | .ok (es, rest2) => .ok (.map es, rest2)
  | .tuple ts, toks =>
    match deserializeComponents ts toks with
    | .error e => .error e
    | .ok (vs, rest) => .ok (.tuple vs, rest)
  | .sum ts, toks =>
    match readVariantIndex toks with
    | .error e => .error e
    | .ok (i, rest) =>
      if h : i < ts.length then
        match deserialize (ts.get ⟨i, h⟩) rest with
        | .error e => .error e
        | .ok (v, rest2) => .ok (.sum i v, rest2)
      else .error .atOutOfRange
  | .ownedPtr t, toks =>
    match deserialize t toks with
    | .error e => .error e
    | .ok (v, rest) => .ok (.ownedPtr v, rest)
termination_by s _ => sizeOf s
decreasing_by
  all_goals simp_wf
  all_goals try omega
  have hmem := List.sizeOf_lt_of_mem (List.get_mem ts i h)
  simp only [List.get_eq_getElem] at hmem
  omega

/-- The component pack expansion of the tuple deserializer under the
declared (left-to-right) argument evaluation order.  This is one admissible
order of the `std::make_tuple` call, not an order the C++ standard fixes:
`deserializeComponentsRTL` below embeds the opposite extreme, and the two
disagree on the same stream. -/
def deserializeComponents :
    List Shape → List Token → Except DeserializeError (List Value × List Token)
  | [], toks => .ok ([], toks)
  | t :: ts, toks =>
    match deserialize t toks with
    | .error e => .error e
    | .ok (v, rest) =>
      match deserializeComponents ts rest with
      | .error e => .error e
      | .ok (vs, rest2) => .ok (v :: vs, rest2)
termination_by ts _ => sizeOf ts
decreasing_by
  all_goals simp_wf
  all_goals omega

end

/-- The component pack expansion of the tuple deserializer under the
right-to-left argument evaluation order, the other extreme the C++ standard
admits for the `std::make_tuple` call (and the one GCC commonly uses): the
last declared component's `deserialize` runs first, consuming from the front
of the stream, and the first declared component's runs last; each decoded
component still lands in its declared position of the aggregate. -/
def deserializeComponentsRTL :
    List Shape → List Token → Except DeserializeError (List Value × List Token)
  | [], toks => .ok ([], toks)
  | t :: ts, toks =>
    match deserializeComponentsRTL ts toks with
    | .error e => .error e
    | .ok (vs, rest) =>
      match deserialize t rest with
      | .error e => .error e
      | .ok (v, rest2) => .ok (v :: vs, rest2)

/-- Embedding of `Serializable<std::unique_ptr<T, Deleter>>::serialize`,
kept separate so that the owner's possible nullness is visible: the body is
`Serializable<T>::serialize(*value, serializer)`, an unconditional
dereference with no null check, so a null owner never reaches the
serializer — dereferencing it is undefined behaviour, embedded as the
absence of a result. -/
def serializeUniquePtr : Option Value → Option (List Token)
  | some v => some (serializeValue v)
  | none => none

/-- The typing relation of the value model: `HasShape v s` states that `v` is
a well-typed C++ value of the type denoted by `s`.  Numeric leaves carry the
range invariant of the corresponding C++ integer type; `fixedArray` carries
the static length; `map` carries the host `std::map` invariant that keys are
pairwise distinct; `sum` requires the active alternative index to address a
declared alternative whose payload type the payload inhabits. -/
inductive HasShape : Value → Shape → Prop where
  | unit : HasShape .unit .unit
  | bool (b : Bool) : HasShape (.bool b) .bool
  | char (c : Nat) (hc : c < 4294967296) : HasShape (.char c) .char
  | f32 (bits : Nat) (hb : bits < 4294967296) : HasShape (.f32 bits) .f32
  | f64 (bits : Nat) (hb : bits < 18446744073709551616) : HasShape (.f64 bits) .f64
  | u8 (n : Nat) (hn : n < 256) : HasShape (.u8 n) .u8
  | u16 (n : Nat) (hn : n < 65536) : HasShape (.u16 n) .u16
  | u32 (n : Nat) (hn : n < 4294967296) : HasShape (.u32 n) .u32
  | u64 (n : Nat) (hn : n < 18446744073709551616) : HasShape (.u64 n) .u64
  | u128 (x : uint128_t) (hh : x.high < 18446744073709551616)
      (hl : x.low < 18446744073709551616) : HasShape (.u128 x) .u128
  | i8 (n : Int) (hlo : -128 ≤ n) (hhi : n < 128) : HasShape (.i8 n) .i8
  | i16 (n : Int) (hlo : -32768 ≤ n) (hhi : n < 32768) : HasShape (.i16 n) .i16
  | i32 (n : Int) (hlo : -2147483648 ≤ n) (hhi : n < 2147483648) :
      HasShape (.i32 n) .i32
  | i64 (n : Int) (hlo : -9223372036854775808 ≤ n)
      (hhi : n < 9223372036854775808) : HasShape (.i64 n) .i64
  | i128 (x : int128_t) (hlo : -9223372036854775808 ≤ x.high)
      (hhi : x.high < 9223372036854775808)
      (hl : x.low < 18446744073709551616) : HasShape (.i128 x) .i128
  | str (s : String) : HasShape (.str s) .str
  | optionNone (t : Shape) : HasShape (.option none) (.option t)
  | optionSome (v : Value) (t : Shape) (hv : HasShape v t) :
      HasShape (.option (some v)) (.option t)
  | seq (vs : List Value) (t : Shape) (hall : ∀ v, v ∈ vs → HasShape v t) :
      HasShape (.seq vs) (.seq t)
  | fixedArray (vs : List Value) (t : Shape) (n : Nat) (hlen : vs.length = n)
      (hall : ∀ v, v ∈ vs → HasShape v t) :
      HasShape (.fixedArray vs) (.fixedArray t n)
  | map (es : List (Value × Value)) (kt vt : Shape)
      (hkeys : (es.map Prod.fst).Pairwise (fun a b => ¬a = b))
      (hk : ∀ e, e ∈ es → HasShape e.1 kt)
      (hv : ∀ e, e ∈ es → HasShape e.2 vt) : HasShape (.map es) (.map kt vt)
  | tuple (vs : List Value) (ts : List Shape) (hlen : vs.length = ts.length)
      (hall : ∀ p, p ∈ vs.zip ts → HasShape p.1 p.2) :
      HasShape (.tuple vs) (.tuple ts)
  | sum (i : Nat) (v : Value) (ts : List Shape) (t : Shape)
      (hget : ts.get? i = some t) (hv : HasShape v t) :
      HasShape (.sum i v) (.sum ts)
  | ownedPtr (v : Value) (t : Shape) (hv : HasShape v t) :
      HasShape (.ownedPtr v) (.ownedPtr t)

theorem mapContains_eq_false (es : List (Value × Value)) (k : Value)
    (h : ∀ a ∈ es, ¬a.1 = k) : mapContains es k = false := by
  simp only [mapContains, List.any_eq_false]
  intro e he
  simpa [Value.beq_iff_eq] using h e he

theorem mapInsert_fresh (es : List (Value × Value)) (k v : Value)
    (h : ∀ a ∈ es, ¬a.1 = k) : mapInsert es k v = es ++ [(k, v)] := by
  simp [mapInsert, mapContains_eq_false es k h]

theorem mapInsert_dup (es : List (Value × Value)) (k v : Value)
    (h : ∃ a ∈ es, a.1 = k) : mapInsert es k v = es := by
  obtain ⟨a, ha, hk⟩ := h
  have : mapContains es k = true := by
    simp only [mapContains, List.any_eq_true]
    exact ⟨a, ha, Value.beq_of_eq _ _ hk⟩
  simp [mapInsert, this]

theorem deserializeElements_serializeList
    (f : List Token → Except DeserializeError (Value × List Token))
    (vs : List Value) (rest : List Token)
    (h : ∀ v ∈ vs, ∀ r, f (serializeValue v ++ r) = .ok (v, r)) :
    deserializeElements f vs.length (serializeList vs ++ rest) = .ok (vs, rest) := by
  induction vs with
  | nil => simp [serializeList, deserializeElements]
  | cons v vs ih =>
    have hv := h v (List.mem_cons_self v vs)
    simp only [serializeList, List.length_cons, List.append_assoc, deserializeElements,
      hv (serializeList vs ++ rest)]
    rw [ih (fun w hw => h w (List.mem_cons_of_mem v hw))]

theorem deserializeMapEntries_serializeEntries
    (fk fv : List Token → Except DeserializeError (Value × List Token)) :
    ∀ (es acc : List (Value × Value)) (rest : List Token),
    (∀ e ∈ es, ∀ r, fk (serializeValue e.1 ++ r) = .ok (e.1, r)) →
    (∀ e ∈ es, ∀ r, fv (serializeValue e.2 ++ r) = .ok (e.2, r)) →
    (∀ e ∈ es, ∀ a ∈ acc, ¬a.1 = e.1) →
    (es.map Prod.fst).Pairwise (fun a b => ¬a = b) →
    deserializeMapEntries fk fv es.length acc (serializeEntries es ++ rest) =
      .ok (acc ++ es, rest) := by
  intro es
  induction es with
  | nil => intro acc rest _ _ _ _; simp [serializeEntries, deserializeMapEntries]
  | cons e es ih =>
    intro acc rest hk hv hfresh hnodup
    obtain ⟨k, v⟩ := e
    have hk0 := hk (k, v) (List.mem_cons_self _ _)
    have hv0 := hv (k, v) (List.mem_cons_self _ _)
    simp only [serializeEntries, List.length_cons, List.append_assoc, deserializeMapEntries,
      hk0 (serializeValue v ++ (serializeEntries es ++ rest)),
      hv0 (serializeEntries es ++ rest)]
    have hfreshk : ∀ a ∈ acc, ¬a.1 = k := fun a ha =>
      hfresh (k, v) (List.mem_cons_self _ _) a ha
    rw [mapInsert_fresh acc k v hfreshk]
    have hnodup1 : (k :: es.map Prod.fst).Pairwise (fun a b => ¬a = b) := by
      simpa using hnodup
    have hpc := List.pairwise_cons.mp hnodup1
    have hnodup2 : (es.map Prod.fst).Pairwise (fun a b => ¬a = b) := hpc.2
    have hkfresh : ∀ e2 ∈ es, ¬k = e2.1 := fun e2 he2 =>
      hpc.1 e2.1 (List.mem_map_of_mem Prod.fst he2)
    rw [ih (acc ++ [(k, v)]) rest
      (fun e2 he2 => hk e2 (List.mem_cons_of_mem _ he2))
      (fun e2 he2 => hv e2 (List.mem_cons_of_mem _ he2))
      (by
        intro e2 he2 a ha
        rcases List.mem_append.mp ha with ha2 | ha2
        · exact hfresh e2 (List.mem_cons_of_mem _ he2) a ha2
        · have : a = (k, v) := by simpa using ha2
          subst this
          exact hkfresh e2 he2)
      hnodup2]
    simp

theorem deserializeComponents_serializeList :
    ∀ (ts : List Shape) (vs : List Value) (rest : List Token),
    vs.length = ts.length →
    (∀ p ∈ vs.zip ts, ∀ r, deserialize p.2 (serializeValue p.1 ++ r) = .ok (p.1, r)) →
    deserializeComponents ts (serializeList vs ++ rest) = .ok (vs, rest) := by
  intro ts
  induction ts with
  | nil =>
    intro vs rest hlen _
    have : vs = [] := List.length_eq_zero.mp hlen
    subst this
    simp [serializeList, deserializeComponents]
  | cons t ts ih =>
    intro vs rest hlen hall
    cases vs with
    | nil => simp at hlen
    | cons v vs =>
      have h0 := hall (v, t) (by simp [List.zip_cons_cons])
      simp only [serializeList, List.append_assoc, deserializeComponents,
        h0 (serializeList vs ++ rest)]
      rw [ih vs rest (by simpa using hlen)
        (fun p hp => hall p (by simp [List.zip_cons_cons, hp]))]

/-- Master round-trip lemma: deserializing a well-typed value's recorded
operation sequence (followed by any further recorded operations) returns
exactly that value and leaves the further operations unread.  Tuple
components are decoded here in declared order — see the evaluation-order
caveat on `deserializeComponents`: the source guarantees this only on
compilers that evaluate the `std::make_tuple` arguments left to right. -/
theorem roundTripAux (v : Value) (s : Shape) (h : HasShape v s) :
    ∀ rest, deserialize s (serializeValue v ++ rest) = .ok (v, rest) := by
  induction h with
  | unit => intro rest; simp [serializeValue, deserialize]
  | bool b => intro rest; simp [serializeValue, deserialize]
  | char c hc => intro rest; simp [serializeValue, deserialize]
  | f32 bits hb => intro rest; simp [serializeValue, deserialize]
  | f64 bits hb => intro rest; simp [serializeValue, deserialize]
  | u8 n hn => intro rest; simp [serializeValue, deserialize, readU8]
  | u16 n hn => intro rest; simp [serializeValue, deserialize]
  | u32 n hn => intro rest; simp [serializeValue, deserialize]
  | u64 n hn => intro rest; simp [serializeValue, deserialize]
  | u128 x hh hl => intro rest; simp [serializeValue, deserialize]
  | i8 n hlo hhi => intro rest; simp [serializeValue, deserialize]
  | i16 n hlo hhi => intro rest; simp [serializeValue, deserialize]
  | i32 n hlo hhi => intro rest; simp [serializeValue, deserialize]
  | i64 n hlo hhi => intro rest; simp [serializeValue, deserialize]
  | i128 x hlo hhi hl => intro rest; simp [serializeValue, deserialize]
  | str s => intro rest; simp [serializeValue, deserialize]
  | optionNone t => intro rest; simp [serializeValue, deserialize, readU8]
  | optionSome v t hv ih => intro rest; simp [serializeValue, deserialize, readU8, ih]
  | seq vs t hall ih =>
    intro rest
    have hel := deserializeElements_serializeList (fun more => deserialize t more)
      vs rest (fun w hw r => ih w hw r)
    simp [serializeValue, deserialize, readLen, hel]
  | fixedArray vs t n hlen hall ih =>
    intro rest
    subst hlen
    have hel := deserializeElements_serializeList (fun more => deserialize t more)
      vs rest (fun w hw r => ih w hw r)
    simp [serializeValue, deserialize, hel]
  | map es kt vt hkeys hk hv ihk ihv =>
    intro rest
    have hme := deserializeMapEntries_serializeEntries
      (fun more => deserialize kt more) (fun more => deserialize vt more)
      es [] rest (fun e he r => ihk e he r) (fun e he r => ihv e he r)
      (by simp) hkeys
    simp [serializeValue, deserialize, readLen, hme]
  | tuple vs ts hlen hall ih =>
    intro rest
    have hc := deserializeComponents_serializeList ts vs rest hlen
      (fun p hp r => ih p hp r)
    simp [serializeValue, deserialize, hc]
  | sum i v ts t hget hv ih =>
    intro rest
    have hlt : i < ts.length := by
      have := List.get?_eq_some.mp hget
      exact this.1
    have hgetEq : ts.get ⟨i, hlt⟩ = t := by
      have := List.get?_eq_some.mp hget
      exact this.2
    simp only [serializeValue, List.cons_append, deserialize, readVariantIndex]
    rw [dif_pos hlt, hgetEq, ih rest]
  | ownedPtr v t hv ih => intro rest; simp [serializeValue, deserialize, ih]

/-- Running a sequence of Writer operations through a concrete Writer `w`
(state type `σ`, each operation may fail with a Writer-side error such as
medium exhaustion), stopping at the first failure. -/
def runOps (w : σ → Token → Except String σ) : σ → List Token → Except String σ
  | st, [] => .ok st
  | st, t :: ts =>
    match w st t with
    | .error e => .error e
    | .ok st2 => runOps w st2 ts

mutual

/-- Embedding of the Serialization Dispatcher run against a concrete Writer
`w` that threads a state and may fail: each `serialize_*` call of the
dispatcher becomes one application of `w`, performed in the dispatcher's
call order, and a Writer failure propagates out unchanged (a C++ exception
from the Serializer aborts the recursion).  The dispatcher itself raises no
error: every right-hand side either applies `w` or recurses. -/
def serializeWith (w : σ → Token → Except String σ) : Value → σ → Except String σ
  | .unit, st => w st .unit
  | .bool b, st => w st (.bool b)
  | .char c, st => w st (.char c)
  | .f32 bits, st => w st (.f32 bits)
  | .f64 bits, st => w st (.f64 bits)
  | .u8 n, st => w st (.u8 n)
  | .u16 n, st => w st (.u16 n)
  | .u32 n, st => w st (.u32 n)
  | .u64 n, st => w st (.u64 n)
  | .u128 x, st => w st (.u128 x)
  | .i8 n, st => w st (.i8 n)
  | .i16 n, st => w st (.i16 n)
  | .i32 n, st => w st (.i32 n)
  | .i64 n, st => w st (.i64 n)
  | .i128 x, st => w st (.i128 x)
  | .str s, st => w st (.str s)
  | .option none, st => w st (.u8 0)
  | .option (some v), st =>
    match w st (.u8 1) with
    | .error e => .error e
    | .ok st2 => serializeWith w v st2
  | .seq vs, st =>
    match w st (.len vs.length) with
    | .error e => .error e
    | .ok st2 => serializeWithList w vs st2
  | .fixedArray vs, st => serializeWithList w vs st
  | .map es, st =>
    match w st (.len es.length) with
    | .error e => .error e
    | .ok st2 => serializeWithEntries w es st2
  | .tuple vs, st => serializeWithList w vs st
  | .sum i v, st =>
    match w st (.variantIndex i) with
    | .error e => .error e
    | .ok st2 => serializeWith w v st2
  | .ownedPtr v, st => serializeWith w v st

/-- The element loop of the vector/array/tuple serializers against a
concrete Writer. -/
def serializeWithList (w : σ → Token → Except String σ) :
    List Value → σ → Except String σ
  | [], st => .ok st
  | v :: vs, st =>
    match serializeWith w v st with
    | .error e => .error e
    | .ok st2 => serializeWithList w vs st2

/-- The entry loop of the map serializer against a concrete Writer. -/
def serializeWithEntries (w : σ → Token → Except String σ) :
    List (Value × Value) → σ → Except String σ
  | [], st => .ok st
  | (k, v) :: es, st =>
    match serializeWith w k st with
    | .error e => .error e
    | .ok st2 =>
      match serializeWith w v st2 with
      | .error e => .error e
      | .ok st3 => serializeWithEntries w es st3

end

theorem runOps_append (w : σ → Token → Except String σ) :
    ∀ (l1 l2 : List Token) (st : σ),
    runOps w st (l1 ++ l2) =
      match runOps w st l1 with
      | .error e => .error e
      | .ok st2 => runOps w st2 l2 := by
  intro l1
  induction l1 with
  | nil => intro l2 st; simp [runOps]
  | cons t ts ih =>
    intro l2 st
    simp only [List.cons_append, runOps]
    cases w st t with
    | error e => simp
    | ok st2 => simp [ih]

theorem mem_zip_left_of_length_eq {α β : Type} (vs : List α) (ts : List β)
    (h : vs.length = ts.length) (v : α) (hv : v ∈ vs) :
    ∃ t, (v, t) ∈ vs.zip ts := by
  induction vs generalizing ts with
  | nil => simp at hv
  | cons a as ih =>
    cases ts with
    | nil => simp at h
    | cons b bs =>
      rcases List.mem_cons.mp hv with rfl | hv2
      · exact ⟨b, by simp [List.zip_cons_cons]⟩
      · obtain ⟨t, ht⟩ := ih bs (by simpa using h) hv2
        exact ⟨t, by simp [List.zip_cons_cons, ht]⟩

theorem runOps_single (w : σ → Token → Except String σ) (st : σ) (t : Token) :
    runOps w st [t] = w st t := by
  simp only [runOps]
  cases w st t <;> simp [runOps]

theorem serializeWithList_eq_runOps (w : σ → Token → Except String σ)
    (vs : List Value)
    (h : ∀ v ∈ vs, ∀ st, serializeWith w v st = runOps w st (serializeValue v)) :
    ∀ st, serializeWithList w vs st = runOps w st (serializeList vs) := by
  induction vs with
  | nil => intro st; simp [serializeWithList, serializeList, runOps]
  | cons v vs ih =>
    intro st
    simp only [serializeWithList, serializeList, runOps_append,
      h v (List.mem_cons_self v vs) st]
    cases runOps w st (serializeValue v) with
    | error e => simp
    | ok st2 => simpa using ih (fun u hu => h u (List.mem_cons_of_mem v hu)) st2

theorem serializeWithEntries_eq_runOps (w : σ → Token → Except String σ)
    (es : List (Value × Value))
    (hk : ∀ e ∈ es, ∀ st, serializeWith w e.1 st = runOps w st (serializeValue e.1))
    (hv : ∀ e ∈ es, ∀ st, serializeWith w e.2 st = runOps w st (serializeValue e.2)) :
    ∀ st, serializeWithEntries w es st = runOps w st (serializeEntries es) := by
  induction es with
  | nil => intro st; simp [serializeWithEntries, serializeEntries, runOps]
  | cons e es ih =>
    intro st
    obtain ⟨k, v⟩ := e
    simp only [serializeWithEntries, serializeEntries, runOps_append,
      hk (k, v) (List.mem_cons_self _ _) st]
    cases runOps w st (serializeValue k) with
    | error e => simp
    | ok st2 =>
      simp only [hv (k, v) (List.mem_cons_self _ _) st2]
      cases runOps w st2 (serializeValue v) with
      | error e => simp
      | ok st3 =>
        simpa using ih (fun u hu => hk u (List.mem_cons_of_mem _ hu))
          (fun u hu => hv u (List.mem_cons_of_mem _ hu)) st3

/-- The effect of the Serialization Dispatcher on any concrete Writer is
exactly the recorded operation sequence run through that Writer: the
dispatcher adds no failure and no choice of its own. -/
theorem serializeWith_eq_runOps (w : σ → Token → Except String σ)
    (v : Value) (s : Shape) (h : HasShape v s) :
    ∀ st, serializeWith w v st = runOps w st (serializeValue v) := by
  induction h with
  | unit => intro st; simp [serializeWith, serializeValue, runOps_single]
  | bool b => intro st; simp [serializeWith, serializeValue, runOps_single]
  | char c hc => intro st; simp [serializeWith, serializeValue, runOps_single]
  | f32 bits hb => intro st; simp [serializeWith, serializeValue, runOps_single]
  | f64 bits hb => intro st; simp [serializeWith, serializeValue, runOps_single]
  | u8 n hn => intro st; simp [serializeWith, serializeValue, runOps_single]
  | u16 n hn => intro st; simp [serializeWith, serializeValue, runOps_single]
  | u32 n hn => intro st; simp [serializeWith, serializeValue, runOps_single]
  | u64 n hn => intro st; simp [serializeWith, serializeValue, runOps_single]
  | u128 x hh hl => intro st; simp [serializeWith, serializeValue, runOps_single]
  | i8 n hlo hhi => intro st; simp [serializeWith, serializeValue, runOps_single]
  | i16 n hlo hhi => intro st; simp [serializeWith, serializeValue, runOps_single]
  | i32 n hlo hhi => intro st; simp [serializeWith, serializeValue, runOps_single]
  | i64 n hlo hhi => intro st; simp [serializeWith, serializeValue, runOps_single]
  | i128 x hlo hhi hl => intro st; simp [serializeWith, serializeValue, runOps_single]
  | str s => intro st; simp [serializeWith, serializeValue, runOps_single]
  | optionNone t => intro st; simp [serializeWith, serializeValue, runOps_single]
  | optionSome v t hv ih =>
    intro st
    simp only [serializeWith, serializeValue, runOps]
    cases w st (Token.u8 1) with
    | error e => simp
    | ok st2 => simp [ih]
  | seq vs t hall ih =>
    intro st
    simp only [serializeWith, serializeValue, runOps]
    cases w st (Token.len vs.length) with
    | error e => simp
    | ok st2 => simpa using serializeWithList_eq_runOps w vs (fun u hu => ih u hu) st2
  | fixedArray vs t n hlen hall ih =>
    intro st
    simp only [serializeWith, serializeValue]
    exact serializeWithList_eq_runOps w vs (fun u hu => ih u hu) st
  | map es kt vt hkeys hk hv ihk ihv =>
    intro st
    simp only [serializeWith, serializeValue, runOps]
    cases w st (Token.len es.length) with
    | error e => simp
    | ok st2 =>
      simpa using serializeWithEntries_eq_runOps w es
        (fun e he => ihk e he) (fun e he => ihv e he) st2
  | tuple vs ts hlen hall ih =>
    intro st
    simp only [serializeWith, serializeValue]
    refine serializeWithList_eq_runOps w vs (fun u hu st2 => ?_) st
    obtain ⟨t2, ht2⟩ := mem_zip_left_of_length_eq vs ts hlen u hu
    exact ih (u, t2) ht2 st2
  | sum i v ts t hget hv ih =>
    intro st
    simp only [serializeWith, serializeValue, runOps]
    cases w st (Token.variantIndex i) with
    | error e => simp
    | ok st2 => simp [ih]
  | ownedPtr v t hv ih => intro st; simp [serializeWith, serializeValue, ih]

theorem runOps_ok (w : σ → Token → Except String σ)
    (hw : ∀ st tok, ∃ st2, w st tok = .ok st2) :
    ∀ (l : List Token) (st : σ), ∃ out, runOps w st l = .ok out := by
  intro l
  induction l with
  | nil => intro st; exact ⟨st, rfl⟩
  | cons t ts ih =>
    intro st
    obtain ⟨st2, h2⟩ := hw st t
    simpa [runOps, h2] using ih st2

theorem serializeList_eq_flatten :
    ∀ vs, serializeList vs = (vs.map serializeValue).flatten := by
  intro vs
  induction vs with
  | nil => simp [serializeList]
  | cons v vs ih => simp [serializeList, ih]

/-- Claim C1: the spec demands bitwise equality on the 128-bit types, but the
source's `operator==` compares `lhs.low` with `lhs.low` (not `rhs.low`), so
it returns `true` for operands that agree on the high half and differ on the
low half; this theorem evaluates the embedded comparison at such a failing
input for both `uint128_t` and `int128_t`. -/
theorem c1_uint128_eq_ignores_low_half :
    uint128_eq ⟨0, 1⟩ ⟨0, 2⟩ = true ∧ int128_eq ⟨0, 1⟩ ⟨0, 2⟩ = true ∧
    ¬(uint128_t.mk 0 1 = uint128_t.mk 0 2) ∧ ¬(int128_t.mk 0 1 = int128_t.mk 0 2) := by
  refine ⟨by decide, by decide, by decide, by decide⟩

/-- Claim C2 as stated is false on the code: decoding a map stream holding
two entries under the same key 5 (first bound to 1, then to 2) yields a map
binding 5 to the FIRST value 1 — `std::map::insert` keeps the existing
entry, so the later entry does not win. -/
theorem c2_map_last_write_wins_counterexample :
    deserialize (.map .u8 .u8)
      [Token.len 2, Token.u8 5, Token.u8 1, Token.u8 5, Token.u8 2] =
      .ok (.map [(.u8 5, .u8 1)], []) ∧
    mapLookup [(Value.u8 5, Value.u8 1)] (Value.u8 5) = some (Value.u8 1) ∧
    ¬mapLookup [(Value.u8 5, Value.u8 1)] (Value.u8 5) = some (Value.u8 2) := by
  refine ⟨?_, ?_, ?_⟩
  · simp [deserialize, deserializeMapEntries, readLen, readU8, mapInsert, mapContains,
      Value.beq]
  · simp [mapLookup, List.find?, Value.beq]
  · simp [mapLookup, List.find?, Value.beq]

/-- Claim C2 (amended): for every Map deserialization whose input stream
contains two entries with equal keys, duplicate keys are not rejected and the
decoded map binds that key to the value of the earlier (first-read) entry:
first write wins, because the host container's `insert` keeps the existing
entry. -/
theorem c2_map_duplicate_first_write_wins (kt vt : Shape) (k a b : Value)
    (rest : List Token) (hk : HasShape k kt) (ha : HasShape a vt)
    (hb : HasShape b vt) :
    deserialize (.map kt vt)
      (Token.len 2 :: (serializeValue k ++ (serializeValue a ++
        (serializeValue k ++ (serializeValue b ++ rest))))) =
      .ok (.map [(k, a)], rest) := by
  have hk1 := roundTripAux k kt hk
  have ha1 := roundTripAux a vt ha
  have hb1 := roundTripAux b vt hb
  have h1 : mapInsert [] k a = [(k, a)] := by simp [mapInsert, mapContains]
  have h2 : mapInsert [(k, a)] k b = [(k, a)] :=
    mapInsert_dup _ k b ⟨(k, a), by simp, rfl⟩
  simp [deserialize, readLen, deserializeMapEntries, hk1, ha1, hb1, h1, h2]

theorem c2_map_duplicate_first_write_wins_witness :
    deserialize (.map .u8 .u8)
      (Token.len 2 :: (serializeValue (.u8 5) ++ (serializeValue (.u8 1) ++
        (serializeValue (.u8 5) ++ (serializeValue (.u8 2) ++ []))))) =
      .ok (.map [(.u8 5, .u8 1)], []) :=
  c2_map_duplicate_first_write_wins .u8 .u8 (.u8 5) (.u8 1) (.u8 2) []
    (HasShape.u8 5 (by decide)) (HasShape.u8 1 (by decide))
    (HasShape.u8 2 (by decide))

/-- Claim C3: the round-trip law is the spec's intent, but the code does not
guarantee it for every finite composition — the serializer emits tuple
components left to right (a comma fold, whose order C++ does fix), while the
tuple deserializer's `std::make_tuple` call leaves its argument evaluation
order to the compiler.  At the tuple value `(7 : u8, true : bool)` the
recorded sequence is `[u8 7, bool true]`; it round-trips under the declared
(left-to-right) decode order but fails under the equally admissible
right-to-left order (the one GCC uses), whose first action is to decode the
`bool` component from the leading `u8` operation. -/
theorem c3_round_trip_unspecified_for_tuples :
    serializeValue (.tuple [.u8 7, .bool true]) = [Token.u8 7, Token.bool true] ∧
    deserialize (.tuple [.u8, .bool]) [Token.u8 7, Token.bool true] =
      .ok (.tuple [.u8 7, .bool true], []) ∧
    deserializeComponentsRTL [.u8, .bool] [Token.u8 7, Token.bool true] =
      .error .readerError := by
  refine ⟨by simp [serializeValue, serializeList],
    by simp [deserialize, deserializeComponents, readU8],
    by simp [deserializeComponentsRTL, deserialize, readU8]⟩

/-- Claim C4 as stated is false on the code: decoding an Option discriminant
byte outside {0, 1} does fail, but the dispatcher throws the string literal
"invalid option tag", not "invalid option discriminant". -/
theorem c4_option_tag_message_counterexample :
    deserialize (.option .u8) [Token.u8 2] =
      .error (.throwMsg "invalid option tag") ∧
    ¬(DeserializeError.throwMsg "invalid option tag" =
      DeserializeError.throwMsg "invalid option discriminant") := by
  refine ⟨by simp [deserialize, readU8], by simp⟩

/-- Claim C4 (amended): for every Option deserialization, discriminant byte 0
yields the absent value with no further Reader operation; discriminant byte 1
followed by a valid inner encoding yields present wrapping the decoded inner
value; any other discriminant byte fails with the decode error thrown as the
string "invalid option tag". -/
theorem c4_option_discriminant_validity (t : Shape) (tag : Nat)
    (toks rest : List Token) (v : Value) :
    deserialize (.option t) (Token.u8 0 :: rest) = .ok (.option none, rest) ∧
    (deserialize t toks = .ok (v, rest) →
      deserialize (.option t) (Token.u8 1 :: toks) = .ok (.option (some v), rest)) ∧
    (¬tag = 0 → ¬tag = 1 →
      deserialize (.option t) (Token.u8 tag :: toks) =
        .error (.throwMsg "invalid option tag")) := by
  refine ⟨by simp [deserialize, readU8], fun h => by simp [deserialize, readU8, h],
    fun h0 h1 => by simp [deserialize, readU8, h0, h1]⟩

theorem c4_option_discriminant_validity_witness :
    deserialize (.option .u8) [Token.u8 0] = .ok (.option none, []) ∧
    deserialize (.option .u8) [Token.u8 1, Token.u8 9] =
      .ok (.option (some (.u8 9)), []) ∧
    deserialize (.option .u8) [Token.u8 2, Token.u8 9] =
      .error (.throwMsg "invalid option tag") := by
  have h := c4_option_discriminant_validity .u8 2 [Token.u8 9] [] (.u8 9)
  exact ⟨h.1, h.2.1 (by simp [deserialize, readU8]),
    h.2.2 (by decide) (by decide)⟩

/-- Claim C5 as stated is false on the code in its error identity: decoding a
variant index with no declared alternative does fail, but with the
`std::out_of_range` exception thrown by `std::array::at` on the case table,
not with a decode error carrying the message "variant index out of range". -/
theorem c5_variant_error_counterexample :
    deserialize (.sum [.unit]) [Token.variantIndex 1] = .error .atOutOfRange ∧
    ¬(DeserializeError.atOutOfRange =
      DeserializeError.throwMsg "variant index out of range") := by
  refine ⟨by simp [deserialize, readVariantIndex], by simp⟩

/-- Claim C5 (amended): for every Sum type with `n` alternatives,
deserialization reads a variant index; an index `i < n` whose payload matches
alternative `i`'s declared type reconstructs exactly alternative `i` via the
case-table entry for that index, and an index `≥ n` fails with the
out-of-range error raised by the case-table lookup (`std::array::at`
throwing `std::out_of_range`). -/
theorem c5_variant_index_validity (ts : List Shape) (i : Nat) (t : Shape)
    (pv : Value) (toks rest : List Token) :
    (ts.get? i = some t → deserialize t toks = .ok (pv, rest) →
      deserialize (.sum ts) (Token.variantIndex i :: toks) = .ok (.sum i pv, rest)) ∧
    (ts.length ≤ i →
      deserialize (.sum ts) (Token.variantIndex i :: toks) = .error .atOutOfRange) := by
  constructor
  · intro hget hdec
    have hlt : i < ts.length := (List.get?_eq_some.mp hget).1
    have hgetEq : ts.get ⟨i, hlt⟩ = t := (List.get?_eq_some.mp hget).2
    simp only [deserialize, readVariantIndex]
    rw [dif_pos hlt, hgetEq, hdec]
  · intro hge
    simp only [deserialize, readVariantIndex]
    rw [dif_neg (by omega)]

theorem c5_variant_index_validity_witness :
    deserialize (.sum [.unit, .u32]) [Token.variantIndex 1, Token.u32 42] =
      .ok (.sum 1 (.u32 42), []) ∧
    deserialize (.sum [.unit, .u32]) [Token.variantIndex 2] =
      .error .atOutOfRange := by
  have h1 := c5_variant_index_validity [.unit, .u32] 1 .u32 (.u32 42)
    [Token.u32 42] []
  have h2 := c5_variant_index_validity [.unit, .u32] 2 .u32 (.u32 42) [] []
  exact ⟨h1.1 rfl (by simp [deserialize]), h2.2 (by decide)⟩

/-- Claim C6: declared-order decoding of tuple components is the spec's
intent, but the code does not guarantee it — the deserializer is the pack
expansion `std::make_tuple(Deserializable<Types>::deserialize(deserializer)...)`,
a function call whose argument evaluation order is unspecified in C++.  The
two admissible extremes disagree on the very stream the serializer writes
for `Tuple<u8, bool>`: the declared (left-to-right) order decodes it, while
the right-to-left order (used by GCC) first decodes the `bool` component
from the leading `u8` operation and fails. -/
theorem c6_tuple_decode_order_not_guaranteed :
    deserializeComponents [.u8, .bool] [Token.u8 7, Token.bool true] =
      .ok ([.u8 7, .bool true], []) ∧
    deserializeComponentsRTL [.u8, .bool] [Token.u8 7, Token.bool true] =
      .error .readerError := by
  refine ⟨by simp [deserializeComponents, deserialize, readU8],
    by simp [deserializeComponentsRTL, deserialize, readU8]⟩

/-- Claim C7: sequence length fidelity — serializing a Sequence of length `k`
writes `serialize_len(k)` followed by the `k` element encodings in iteration
order; deserializing the result reads the length and decodes exactly those
`k` elements back in read order; and a stream announcing length 0 decodes to
the empty collection with no further Reader operation. -/
theorem c7_sequence_length_fidelity (t : Shape) (vs : List Value)
    (rest : List Token) (h : ∀ v ∈ vs, HasShape v t) :
    serializeValue (.seq vs) =
      Token.len vs.length :: (vs.map serializeValue).flatten ∧
    deserialize (.seq t) (serializeValue (.seq vs) ++ rest) = .ok (.seq vs, rest) ∧
    deserialize (.seq t) (Token.len 0 :: rest) = .ok (.seq [], rest) := by
  refine ⟨by simp [serializeValue, serializeList_eq_flatten], ?_, ?_⟩
  · exact roundTripAux (.seq vs) (.seq t) (HasShape.seq vs t h) rest
  · simp [deserialize, readLen, deserializeElements]

theorem c7_sequence_length_fidelity_witness :
    serializeValue (.seq [.u8 1, .u8 2]) =
      Token.len 2 :: ([Value.u8 1, Value.u8 2].map serializeValue).flatten ∧
    deserialize (.seq .u8) (serializeValue (.seq [.u8 1, .u8 2]) ++ []) =
      .ok (.seq [.u8 1, .u8 2], []) ∧
    deserialize (.seq .u8) (Token.len 0 :: []) = .ok (.seq [], []) := by
  have h := c7_sequence_length_fidelity .u8 [.u8 1, .u8 2] [] (by
    intro v hv
    simp only [List.mem_cons, List.not_mem_nil, or_false] at hv
    rcases hv with rfl | rfl
    · exact HasShape.u8 1 (by decide)
    · exact HasShape.u8 2 (by decide))
  simpa using h

/-- Claim C8: serialization is total — for every well-typed value, the
Serialization Dispatcher run against any concrete Writer performs exactly the
one deterministic operation sequence `serializeValue v`, raising no error of
its own; in particular, whenever the Writer's own operations all succeed, the
dispatcher succeeds. -/
theorem c8_serialization_is_total {σ : Type} (w : σ → Token → Except String σ)
    (s : Shape) (v : Value) (st : σ) (h : HasShape v s) :
    serializeWith w v st = runOps w st (serializeValue v) ∧
    ((∀ st2 tok, ∃ st3, w st2 tok = .ok st3) →
      ∃ out, serializeWith w v st = .ok out) := by
  have heq := serializeWith_eq_runOps w v s h st
  refine ⟨heq, fun hw => ?_⟩
  rw [heq]
  exact runOps_ok w hw (serializeValue v) st

theorem c8_serialization_is_total_witness :
    serializeWith (fun (st : List Token) (tok : Token) => Except.ok (st ++ [tok]))
      (.bool true) ([] : List Token) = .ok [Token.bool true] := by
  have h := c8_serialization_is_total
    (fun (st : List Token) (tok : Token) => Except.ok (st ++ [tok]))
    .bool (.bool true) [] (HasShape.bool true)
  rw [h.1]
  simp [runOps, serializeValue]

/-- Claim C9: OwnedIndirection is transparent to the wire format —
serializing the indirection produces exactly the Writer call sequence of the
held value, and deserializing an indirection of `T` performs exactly the
Reader operations of deserializing `T`, wrapping a successful decode in the
sole owner and propagating a failing decode unchanged. -/
theorem c9_owned_indirection_transparent (v pv : Value) (t : Shape)
    (toks rest : List Token) :
    serializeValue (.ownedPtr v) = serializeValue v ∧
    (deserialize t toks = .ok (pv, rest) →
      deserialize (.ownedPtr t) toks = .ok (.ownedPtr pv, rest)) ∧
    (∀ e, deserialize t toks = .error e →
      deserialize (.ownedPtr t) toks = .error e) := by
  refine ⟨by simp [serializeValue], fun h => by simp [deserialize, h],
    fun e he => by simp [deserialize, he]⟩

theorem c9_owned_indirection_transparent_witness :
    serializeValue (.ownedPtr (.u8 3)) = serializeValue (.u8 3) ∧
    deserialize (.ownedPtr .u8) [Token.u8 3] = .ok (.ownedPtr (.u8 3), []) ∧
    deserialize (.ownedPtr .u8) [Token.bool true] = .error .readerError := by
  have h := c9_owned_indirection_transparent (.u8 3) (.u8 3) .u8
    [Token.u8 3] []
  have h2 := c9_owned_indirection_transparent (.u8 3) (.u8 3) .u8
    [Token.bool true] []
  exact ⟨h.1, h.2.1 (by simp [deserialize, readU8]),
    h2.2.2 .readerError (by simp [deserialize, readU8])⟩

/-- Claim C10: `Serializable<std::unique_ptr<T>>::serialize` dereferences the
owner unconditionally with no null check, so it is well-defined exactly under
the precondition that the owner is non-null; under that precondition the
dereference cannot fail and the output is the held value's own Writer call
sequence. -/
theorem c10_unique_ptr_serialize_nonnull (ptr : Option Value)
    (h : ¬ptr = none) :
    ∃ v, ptr = some v ∧ serializeUniquePtr ptr = some (serializeValue v) := by
  cases ptr with
  | none => exact absurd rfl h
  | some v => exact ⟨v, rfl, rfl⟩

theorem c10_unique_ptr_serialize_nonnull_witness :
    ¬(some Value.unit = none) ∧
    ∃ v, some Value.unit = some v ∧
      serializeUniquePtr (some Value.unit) = some (serializeValue v) :=
  ⟨by simp, c10_unique_ptr_serialize_nonnull (some Value.unit) (by simp)⟩

end Serde
